import Mathlib

/-!
Shallow embedding of the Cell-Count batch pipeline (src/cfu_count.py, main).

The pipeline: discover plate images in a folder, initialize the Cellpose
oracle once, process each image inside a per-image try/except, write one CSV
row and one overlay PNG per successful image, and emit progress lines.

Filesystem entries are modelled as named nodes (regular file or directory
with children); the oracle, the image loader and the renderer are modelled
as fallible functions supplied in the run configuration, since the script
treats them as external collaborators.
-/

namespace CellCount

/-- One entry of a directory as seen by Path.iterdir: either a regular file
or a subdirectory with its own entries. -/
inductive FSEntry where
  | file (name : String)
  | dir (name : String) (children : List FSEntry)

def FSEntry.name : FSEntry → String
  | .file n => n
  | .dir n _ => n

def FSEntry.isFile : FSEntry → Bool
  | .file _ => true
  | .dir _ _ => false

/-- Split a character list around its LAST dot: returns (before, after)
when a dot occurs, none otherwise. -/
def splitLastDot : List Char → Option (List Char × List Char)
  | [] => none
  | c :: rest =>
    match splitLastDot rest with
    | some (b, a) => some (c :: b, a)
    | none => if c = '.' then some ([], rest) else none

/-- pathlib suffix of a file name: the part from the last dot on, empty when
the dot is leading (hidden-style names) or trailing or absent. -/
def pySuffix (name : String) : String :=
  match splitLastDot name.data with
  | some (b, a) => if b ≠ [] ∧ a ≠ [] then String.mk ('.' :: a) else ""
  | none => ""

/-- pathlib stem of a file name: the part before the last dot, or the whole
name when the suffix is empty. -/
def pyStem (name : String) : String :=
  match splitLastDot name.data with
  | some (b, a) => if b ≠ [] ∧ a ≠ [] then String.mk b else name
  | none => name

/-- Python str.lower restricted to the ASCII range, which covers the
recognized extension alphabet. -/
def pyLower (s : String) : String :=
  String.mk (s.data.map Char.toLower)

/-- Python name.startswith of a single dot: the first character is a dot. -/
def startsWithDot (s : String) : Bool :=
  match s.data with
  | [] => false
  | c :: _ => c = '.'

/-- Code-point lexicographic comparison of character lists, the order Python
uses to compare path strings. -/
def charListLe : List Char → List Char → Bool
  | [], _ => true
  | _ :: _, [] => false
  | a :: as, b :: bs =>
    if a < b then true else if b < a then false else charListLe as bs

/-- String order used by sorted() over paths sharing one folder prefix. -/
def strLe (a b : String) : Prop :=
  charListLe a.data b.data = true

instance : DecidableRel strLe :=
  fun a b => inferInstanceAs (Decidable (charListLe a.data b.data = true))

/-- Recognized plate-image extensions (cfu_count.py line 47). -/
def IMAGE_EXTS : List String := [".tif", ".tiff", ".png", ".jpg", ".jpeg"]

/-- Filter of the discovery comprehension (cfu_count.py lines 48-51):
suffix lowered is a recognized extension and the name has no leading dot.
The source checks nothing else about the entry. -/
def isPlateEntry (e : FSEntry) : Bool :=
  IMAGE_EXTS.contains (pyLower (pySuffix e.name)) && !(startsWithDot e.name)

/-- Names of the entries kept by the discovery filter, in directory order. -/
def discoverNames (entries : List FSEntry) : List String :=
  (entries.filter isPlateEntry).map FSEntry.name

/-- The Worklist: discovered names sorted ascending (cfu_count.py line 48,
sorted over paths that share the folder prefix, hence over names). -/
def worklist (entries : List FSEntry) : List String :=
  List.insertionSort strLe (discoverNames entries)

/-- Shape of a loaded numpy image (io.imread result); its length is ndim. -/
structure ImageData where
  shape : List Nat
deriving DecidableEq

/-- A label mask as the list of its entries; 0 marks background. -/
abbrev Mask := List Nat

/-- np max over the mask entries (line 111); raises on an empty array. -/
def maskMax : Mask → Except String Nat
  | [] => .error "zero-size array reduction"
  | x :: xs => .ok (xs.foldl Nat.max x)

/-- One CSV data row: the image stem and the predicted colony count. -/
structure CountRecord where
  fileName : String
  trueCount : Nat
deriving DecidableEq

/-- Stdout lines of main, one constructor per print site. -/
inductive LogLine where
  | found (count : Nat)
  | listItem (idx : Nat) (name : String)
  | savingTo (dirName : String)
  | gpuCuda
  | gpuMps
  | noGpu
  | cpuWarning
  | loadingModel (gpu : Bool)
  | processing (name : String)
  | shapeIs (shape : List Nat)
  | predicted (count : Nat)
  | savedOverlay (name : String)
  | errorProcessing (name : String) (msg : String)
  | done (path : String)
  | overlaysIn (dirName : String)
deriving DecidableEq

/-- Run configuration: the parsed command-line facts and the external
collaborators (filesystem listing, torch accelerator probes, Cellpose model
construction, image loader, oracle inference, matplotlib rendering) as the
script observes them. -/
structure RunConfig where
  folderIsDir : Bool
  entries : List FSEntry
  outputDirArg : Option String
  cudaAvailable : Bool
  mpsAvailable : Bool
  oracleInitOk : Bool
  load : String → Except String ImageData
  infer : ImageData → Except String Mask
  render : ImageData → Mask → Except String Unit

/-- One iteration of the per-image loop (lines 93-145): the lines it prints
and, on success, the predicted count with the overlay file name; none when
the try body raised and the except clause ran instead of the row write. -/
def stepImage (cfg : RunConfig) (name : String) : List LogLine × Option (Nat × String) :=
  match cfg.load name with
  | .error e => ([.processing name, .errorProcessing name e], none)
  | .ok img =>
    match cfg.infer img with
    | .error e => ([.processing name, .shapeIs img.shape, .errorProcessing name e], none)
    | .ok masks =>
      match maskMax masks with
      | .error e => ([.processing name, .shapeIs img.shape, .errorProcessing name e], none)
      | .ok pred =>
        match cfg.render img masks with
        | .error e =>
          ([.processing name, .shapeIs img.shape, .predicted pred,
            .errorProcessing name e], none)
        | .ok _ =>
          ([.processing name, .shapeIs img.shape, .predicted pred,
            .savedOverlay (pyStem name ++ "_overlay.png")],
           some (pred, pyStem name ++ "_overlay.png"))

/-- CSV row contributed by one worklist name, when it succeeds. -/
def recordOf (cfg : RunConfig) (name : String) : Option CountRecord :=
  (stepImage cfg name).2.map fun pr => ⟨pyStem name, pr.1⟩

/-- Overlay file written for one worklist name, when it succeeds. -/
def overlayOf (cfg : RunConfig) (name : String) : Option String :=
  (stepImage cfg name).2.map Prod.snd

def stepLogs (cfg : RunConfig) (name : String) : List LogLine :=
  (stepImage cfg name).1

def loopLogs (cfg : RunConfig) : List String → List LogLine
  | [] => []
  | n :: rest => stepLogs cfg n ++ loopLogs cfg rest

/-- Accumulated effects of the per-image loop: CSV data rows in write order,
overlay writes in write order, and printed lines. -/
structure LoopState where
  rows : List CountRecord
  overlays : List String
  lines : List LogLine
deriving DecidableEq

def runStep (cfg : RunConfig) (st : LoopState) (name : String) : LoopState :=
  match stepImage cfg name with
  | (ls, none) => ⟨st.rows, st.overlays, st.lines ++ ls⟩
  | (ls, some pr) =>
    ⟨st.rows ++ [⟨pyStem name, pr.1⟩], st.overlays ++ [pr.2], st.lines ++ ls⟩

def runLoop (cfg : RunConfig) (images : List String) : LoopState :=
  images.foldl (runStep cfg) ⟨[], [], []⟩

/-- Content of colony_counts.csv as rows of cells: the header row written at
lines 86-91, then one row per successful image in processing order. -/
def csvTable (rows : List CountRecord) : List (List String) :=
  ["File Name", "True Count"] :: rows.map fun r => [r.fileName, toString r.trueCount]

/-- Discovery progress lines (lines 53-55). -/
def listingLogs (images : List String) : List LogLine :=
  .found images.length :: images.enum.map fun p => .listItem (p.1 + 1) p.2

/-- use_gpu after the torch probes (lines 68-74): CUDA first, then MPS,
else the CPU fallback. -/
def gpuFlag (cuda mps : Bool) : Bool :=
  if cuda then true else if mps then true else false

def gpuLogs (cuda mps : Bool) : List LogLine :=
  if cuda then [.gpuCuda]
  else if mps then [.gpuMps]
  else [.noGpu, .cpuWarning]

/-- Truthiness of args.output_dir (line 40): present and non-empty. -/
def outSpecified : Option String → Bool
  | none => false
  | some s => !(s == "")

/-- Observable outcome of one process run. -/
structure RunResult where
  exitCode : Nat
  outputDirCreated : Bool
  visualsDirCreated : Bool
  csv : Option (List (List String))
  overlayWrites : List String
  logs : List LogLine
deriving DecidableEq

/-- Body of main from line 53 on, given the already-computed worklist; reads
the configuration only for the accelerator probes and the collaborators,
never for the directory listing. -/
def runWithImages (cfg : RunConfig) (outCreated : Bool) (images : List String) : RunResult :=
  let logs0 := listingLogs images
  if images.isEmpty then
    ⟨0, outCreated, false, none, [], logs0⟩
  else
    let logs1 := logs0 ++ [.savingTo "cp_visuals"]
      ++ gpuLogs cfg.cudaAvailable cfg.mpsAvailable
      ++ [.loadingModel (gpuFlag cfg.cudaAvailable cfg.mpsAvailable)]
    if cfg.oracleInitOk then
      let st := runLoop cfg images
      ⟨0, outCreated, true, some (csvTable st.rows), st.overlays,
        logs1 ++ st.lines ++ [.done "colony_counts.csv", .overlaysIn "cp_visuals"]⟩
    else
      ⟨1, outCreated, true, none, [], logs1⟩

/-- Entry point main (cfu_count.py lines 14-148) for a parsed command line.
The SystemExit raised on a missing folder (line 37) ends the process with a
non-zero code, as does an uncaught oracle construction error (line 81). -/
def runMain (cfg : RunConfig) : RunResult :=
  if cfg.folderIsDir then
    runWithImages cfg (outSpecified cfg.outputDirArg) (worklist cfg.entries)
  else
    ⟨1, false, false, none, [], []⟩

/-- Distinct overlay paths on disk after the run: each savefig call writes
its target, and a later write to the same path replaces the earlier file. -/
def finalOverlayFiles (writes : List String) : List String :=
  writes.foldl (fun acc p => if acc.contains p then acc else acc ++ [p]) []

/-- A filesystem path as its components below the root. -/
abbrev FPath := List String

def pathOf (folder : FPath) (n : String) : FPath := folder ++ [n]

/-- Worklist entries as full paths: iterdir yields folder slash name for the
immediate entries only. -/
def worklistPaths (folder : FPath) (entries : List FSEntry) : List FPath :=
  (worklist entries).map (pathOf folder)

/-- Sample collaborators for concrete runs: every image loads as a 100 x 100
grayscale array, inference yields dense labels 0..7, rendering succeeds. -/
def okLoad : String → Except String ImageData := fun _ => .ok ⟨[100, 100]⟩

def okInfer : ImageData → Except String Mask := fun _ => .ok [0, 1, 2, 3, 4, 5, 6, 7]

def okRender : ImageData → Mask → Except String Unit := fun _ _ => .ok ()

def sampleCfg (entries : List FSEntry) : RunConfig :=
  ⟨true, entries, some "out", false, false, true, okLoad, okInfer, okRender⟩

/-- Loader that fails for every image, as a decode error does. -/
def failLoad : String → Except String ImageData := fun _ => .error "cannot identify image file"

/-- Run whose worklist is non-empty but whose model construction raises. -/
def noInitCfg : RunConfig :=
  ⟨true, [.file "a.png"], none, false, false, false, okLoad, okInfer, okRender⟩

/-- Run where every per-image step fails at decode time. -/
def allFailCfg : RunConfig :=
  ⟨true, [.file "a.png"], none, false, false, true, failLoad, okInfer, okRender⟩

/-- Collaborators for the three-image isolation scenario: the second image
loads with a marker shape on which inference raises. -/
def isoLoad : String → Except String ImageData := fun n =>
  if n = "b.tif" then .ok ⟨[2]⟩ else .ok ⟨[100, 100]⟩

def isoInfer : ImageData → Except String Mask := fun img =>
  if img.shape = [2] then .error "CUDA out of memory" else .ok [0, 1, 2]

def isoCfg : RunConfig :=
  ⟨true, [.file "a.tif", .file "b.tif", .file "c.tif"], none, false, false, true,
   isoLoad, isoInfer, okRender⟩

/-- Oracle that returns an all-zero mask (no colonies found). -/
def zeroInfer : ImageData → Except String Mask := fun _ => .ok [0, 0, 0]

def zeroCfg : RunConfig :=
  ⟨true, [.file "empty.png"], none, false, false, true, okLoad, zeroInfer, okRender⟩

example : pySuffix "a.tif" = ".tif" := by decide
example : pySuffix ".hidden" = "" := by decide
example : pySuffix ".hidden.png" = ".png" := by decide
example : pySuffix "archive.tar.gz" = ".gz" := by decide
example : pyStem "plate1.tif" = "plate1" := by decide
example : pyStem "noext" = "noext" := by decide
example : worklist [.file "b.TIFF", .file "notes.txt", .file "a.tif", .file ".hidden.png"]
    = ["a.tif", "b.TIFF"] := by decide

theorem charListLe_total : ∀ a b, charListLe a b = true ∨ charListLe b a = true
  | [], _ => .inl rfl
  | _ :: _, [] => .inr rfl
  | a :: as, b :: bs => by
    rcases lt_trichotomy a b with h | h | h
    · left; simp [charListLe, h]
    · subst h
      simp only [charListLe, lt_irrefl, if_false]
      exact charListLe_total as bs
    · right; simp [charListLe, h]

theorem charListLe_trans :
    ∀ a b c, charListLe a b = true → charListLe b c = true → charListLe a c = true
  | [], _, _, _, _ => rfl
  | _ :: _, [], _, h, _ => by simp [charListLe] at h
  | _ :: _, _ :: _, [], _, h => by simp [charListLe] at h
  | a :: as, b :: bs, c :: cs, h₁, h₂ => by
    rcases lt_trichotomy a b with hab | hab | hab
    · rcases lt_trichotomy b c with hbc | hbc | hbc
      · simp [charListLe, lt_trans hab hbc]
      · subst hbc; simp [charListLe, hab]
      · simp [charListLe, asymm hbc, hbc] at h₂
    · subst hab
      simp only [charListLe, lt_irrefl, if_false] at h₁
      rcases lt_trichotomy a c with hac | hac | hac
      · simp [charListLe, hac]
      · subst hac
        simp only [charListLe, lt_irrefl, if_false] at h₂ ⊢
        exact charListLe_trans as bs cs h₁ h₂
      · simp [charListLe, asymm hac, hac] at h₂
    · simp [charListLe, asymm hab, hab] at h₁

theorem charListLe_antisymm :
    ∀ a b, charListLe a b = true → charListLe b a = true → a = b
  | [], [], _, _ => rfl
  | [], _ :: _, _, h => by simp [charListLe] at h
  | _ :: _, [], h, _ => by simp [charListLe] at h
  | a :: as, b :: bs, h₁, h₂ => by
    rcases lt_trichotomy a b with h | h | h
    · simp [charListLe, asymm h, h] at h₂
    · subst h
      simp only [charListLe, lt_irrefl, if_false] at h₁ h₂
      rw [charListLe_antisymm as bs h₁ h₂]
    · simp [charListLe, asymm h, h] at h₁

instance : IsTotal String strLe :=
  ⟨fun a b => charListLe_total a.data b.data⟩

instance : IsTrans String strLe :=
  ⟨fun a b c => charListLe_trans a.data b.data c.data⟩

instance : IsAntisymm String strLe := by
  refine ⟨fun a b h₁ h₂ => ?_⟩
  have h := charListLe_antisymm a.data b.data h₁ h₂
  cases a; cases b
  exact congrArg String.mk h

theorem worklist_sorted (entries : List FSEntry) : (worklist entries).Sorted strLe :=
  List.sorted_insertionSort strLe (discoverNames entries)

theorem worklist_perm_eq {e₁ e₂ : List FSEntry} (h : List.Perm e₁ e₂) :
    worklist e₁ = worklist e₂ := by
  apply List.eq_of_perm_of_sorted (r := strLe)
  · exact (List.perm_insertionSort _ _).trans
      (((h.filter isPlateEntry).map FSEntry.name).trans
        (List.perm_insertionSort _ _).symm)
  · exact List.sorted_insertionSort _ _
  · exact List.sorted_insertionSort _ _

theorem mem_worklist {entries : List FSEntry} {n : String} :
    n ∈ worklist entries ↔
      ∃ e ∈ entries, FSEntry.name e = n ∧ isPlateEntry e = true := by
  rw [worklist, List.mem_insertionSort, discoverNames]
  simp only [List.mem_map, List.mem_filter]
  constructor
  · rintro ⟨e, ⟨he, hp⟩, hn⟩
    exact ⟨e, he, hn, hp⟩
  · rintro ⟨e, he, hn, hp⟩
    exact ⟨e, ⟨he, hp⟩, hn⟩

theorem worklist_nodup {entries : List FSEntry}
    (h : (entries.map FSEntry.name).Nodup) : (worklist entries).Nodup := by
  have hsub : List.Sublist (discoverNames entries) (entries.map FSEntry.name) :=
    (List.filter_sublist entries).map FSEntry.name
  exact ((List.perm_insertionSort strLe (discoverNames entries)).nodup_iff).mpr
    (h.sublist hsub)

theorem foldl_runStep_eq (cfg : RunConfig) :
    ∀ (images : List String) (st : LoopState),
      images.foldl (runStep cfg) st =
        ⟨st.rows ++ images.filterMap (recordOf cfg),
         st.overlays ++ images.filterMap (overlayOf cfg),
         st.lines ++ loopLogs cfg images⟩
  | [], st => by simp [loopLogs]
  | n :: rest, st => by
    simp only [List.foldl_cons]
    rw [foldl_runStep_eq cfg rest]
    simp only [List.filterMap_cons, recordOf, overlayOf, loopLogs, stepLogs, runStep]
    cases h : stepImage cfg n with
    | mk ls res =>
      cases res with
      | none => simp [h]
      | some pr => simp [h]

theorem runLoop_eq (cfg : RunConfig) (images : List String) :
    runLoop cfg images =
      ⟨images.filterMap (recordOf cfg), images.filterMap (overlayOf cfg),
       loopLogs cfg images⟩ := by
  simpa using foldl_runStep_eq cfg images ⟨[], [], []⟩

theorem runMain_missing_folder (cfg : RunConfig) (hdir : cfg.folderIsDir = false) :
    runMain cfg = ⟨1, false, false, none, [], []⟩ := by
  rw [runMain, hdir]
  simp

theorem runMain_empty (cfg : RunConfig) (hdir : cfg.folderIsDir = true)
    (he : worklist cfg.entries = []) :
    runMain cfg =
      ⟨0, outSpecified cfg.outputDirArg, false, none, [], [.found 0]⟩ := by
  rw [runMain, hdir, runWithImages]
  simp [he, listingLogs]

theorem runMain_noInit (cfg : RunConfig) (hdir : cfg.folderIsDir = true)
    (hbad : cfg.oracleInitOk = false) (hne : worklist cfg.entries ≠ []) :
    runMain cfg =
      ⟨1, outSpecified cfg.outputDirArg, true, none, [],
       listingLogs (worklist cfg.entries) ++ [.savingTo "cp_visuals"]
         ++ gpuLogs cfg.cudaAvailable cfg.mpsAvailable
         ++ [.loadingModel (gpuFlag cfg.cudaAvailable cfg.mpsAvailable)]⟩ := by
  rw [runMain, hdir, runWithImages]
  have hie : (worklist cfg.entries).isEmpty = false := by
    cases h : worklist cfg.entries with
    | nil => exact absurd h hne
    | cons a l => rfl
  simp [hie, hbad]

theorem runMain_normal (cfg : RunConfig) (hdir : cfg.folderIsDir = true)
    (hinit : cfg.oracleInitOk = true) (hne : worklist cfg.entries ≠ []) :
    runMain cfg =
      ⟨0, outSpecified cfg.outputDirArg, true,
       some (csvTable ((worklist cfg.entries).filterMap (recordOf cfg))),
       (worklist cfg.entries).filterMap (overlayOf cfg),
       listingLogs (worklist cfg.entries) ++ [.savingTo "cp_visuals"]
         ++ gpuLogs cfg.cudaAvailable cfg.mpsAvailable
         ++ [.loadingModel (gpuFlag cfg.cudaAvailable cfg.mpsAvailable)]
         ++ loopLogs cfg (worklist cfg.entries)
         ++ [.done "colony_counts.csv", .overlaysIn "cp_visuals"]⟩ := by
  rw [runMain, hdir, runWithImages]
  have hie : (worklist cfg.entries).isEmpty = false := by
    cases h : worklist cfg.entries with
    | nil => exact absurd h hne
    | cons a l => rfl
  simp [hie, hinit, runLoop_eq, List.append_assoc]

theorem stepImage_fail_log (cfg : RunConfig) (name : String)
    (hfail : (stepImage cfg name).2 = none) :
    ∃ msg, LogLine.errorProcessing name msg ∈ stepLogs cfg name := by
  unfold stepLogs stepImage at *
  cases hl : cfg.load name with
  | error e => simp [hl]
  | ok img =>
    cases hi : cfg.infer img with
    | error e => simp [hl, hi]
    | ok masks =>
      cases hm : maskMax masks with
      | error e => simp [hl, hi, hm]
      | ok pred =>
        cases hr : cfg.render img masks with
        | error e => simp [hl, hi, hm, hr]
        | ok u => simp [hl, hi, hm, hr] at hfail

theorem mem_loopLogs_of_mem (cfg : RunConfig) {images : List String}
    {name : String} {l : LogLine} (hmem : name ∈ images)
    (hl : l ∈ stepLogs cfg name) : l ∈ loopLogs cfg images := by
  induction images with
  | nil => cases hmem
  | cons n rest ih =>
    rcases List.mem_cons.mp hmem with h | h
    · subst h
      exact List.mem_append.mpr (.inl hl)
    · exact List.mem_append.mpr (.inr (ih h))

theorem loadingModel_not_mem_stepLogs (cfg : RunConfig) (name : String)
    (g : Bool) : LogLine.loadingModel g ∉ stepLogs cfg name := by
  unfold stepLogs stepImage
  cases hl : cfg.load name with
  | error e => simp [hl]
  | ok img =>
    cases hi : cfg.infer img with
    | error e => simp [hl, hi]
    | ok masks =>
      cases hm : maskMax masks with
      | error e => simp [hl, hi, hm]
      | ok pred =>
        cases hr : cfg.render img masks with
        | error e => simp [hl, hi, hm, hr]
        | ok u => simp [hl, hi, hm, hr]

theorem loadingModel_not_mem_loopLogs (cfg : RunConfig) (g : Bool) :
    ∀ images : List String, LogLine.loadingModel g ∉ loopLogs cfg images
  | [] => by simp [loopLogs]
  | n :: rest => by
    simp only [loopLogs, List.mem_append]
    rintro (h | h)
    · exact loadingModel_not_mem_stepLogs cfg n g h
    · exact loadingModel_not_mem_loopLogs cfg g rest h

theorem loadingModel_not_mem_listingLogs (g : Bool) (images : List String) :
    LogLine.loadingModel g ∉ listingLogs images := by
  simp only [listingLogs, List.mem_cons, List.mem_map]
  rintro (h | ⟨p, _, h⟩) <;> cases h

theorem processing_not_mem_listingLogs (n : String) (images : List String) :
    LogLine.processing n ∉ listingLogs images := by
  simp only [listingLogs, List.mem_cons, List.mem_map]
  rintro (h | ⟨p, _, h⟩) <;> cases h

theorem loadingModel_not_mem_gpuLogs (g : Bool) (cuda mps : Bool) :
    LogLine.loadingModel g ∉ gpuLogs cuda mps := by
  unfold gpuLogs
  cases cuda <;> cases mps <;> simp

theorem processing_not_mem_gpuLogs (n : String) (cuda mps : Bool) :
    LogLine.processing n ∉ gpuLogs cuda mps := by
  unfold gpuLogs
  cases cuda <;> cases mps <;> simp

theorem le_foldl_max : ∀ (xs : List Nat) (x : Nat), x ≤ xs.foldl Nat.max x
  | [], _ => le_refl _
  | y :: ys, x => le_trans (Nat.le_max_left x y) (le_foldl_max ys (Nat.max x y))

theorem foldl_max_le_all : ∀ (xs : List Nat) (x v : Nat),
    v ∈ xs → v ≤ xs.foldl Nat.max x
  | y :: ys, x, v, hmem => by
    rcases List.mem_cons.mp hmem with h | h
    · subst h
      exact le_trans (Nat.le_max_right x v) (le_foldl_max ys (Nat.max x v))
    · exact foldl_max_le_all ys (Nat.max x y) v h

theorem foldl_max_mem : ∀ (xs : List Nat) (x : Nat),
    xs.foldl Nat.max x = x ∨ xs.foldl Nat.max x ∈ xs
  | [], _ => .inl rfl
  | y :: ys, x => by
    simp only [List.foldl_cons]
    rcases foldl_max_mem ys (Nat.max x y) with h | h
    · rcases Nat.le_total x y with hxy | hxy
      · right
        have hm : Nat.max x y = y := Nat.max_eq_right hxy
        rw [h, hm]
        exact List.mem_cons_self y ys
      · left
        rw [h]
        exact Nat.max_eq_left hxy
    · right
      exact List.mem_cons_of_mem y h

theorem maskMax_spec (masks : Mask) (v : Nat) (h : maskMax masks = .ok v) :
    v ∈ masks ∧ ∀ u ∈ masks, u ≤ v := by
  cases masks with
  | nil => cases h
  | cons x xs =>
    simp only [maskMax, Except.ok.injEq] at h
    subst h
    constructor
    · rcases foldl_max_mem xs x with h | h
      · rw [h]; exact List.mem_cons_self x xs
      · exact List.mem_cons_of_mem x h
    · intro u hu
      rcases List.mem_cons.mp hu with h | h
      · subst h; exact le_foldl_max xs u
      · exact foldl_max_le_all xs x u h

theorem stepImage_ok_overlay_name (cfg : RunConfig) (name : String)
    (pr : Nat × String) (h : (stepImage cfg name).2 = some pr) :
    pr.2 = pyStem name ++ "_overlay.png" := by
  unfold stepImage at h
  cases hl : cfg.load name with
  | error e => simp [hl] at h
  | ok img =>
    cases hi : cfg.infer img with
    | error e => simp [hl, hi] at h
    | ok masks =>
      cases hm : maskMax masks with
      | error e => simp [hl, hi, hm] at h
      | ok pred =>
        cases hr : cfg.render img masks with
        | error e => simp [hl, hi, hm, hr] at h
        | ok u =>
          simp only [hl, hi, hm, hr, Option.some.injEq] at h
          rw [← h]

theorem stepImage_ok_mask (cfg : RunConfig) (name : String)
    (pr : Nat × String) (h : (stepImage cfg name).2 = some pr) :
    ∃ img masks, cfg.load name = .ok img ∧ cfg.infer img = .ok masks ∧
      maskMax masks = .ok pr.1 := by
  unfold stepImage at h
  cases hl : cfg.load name with
  | error e => simp [hl] at h
  | ok img =>
    cases hi : cfg.infer img with
    | error e => simp [hl, hi] at h
    | ok masks =>
      cases hm : maskMax masks with
      | error e => simp [hl, hi, hm] at h
      | ok pred =>
        cases hr : cfg.render img masks with
        | error e => simp [hl, hi, hm, hr] at h
        | ok u =>
          simp only [hl, hi, hm, hr, Option.some.injEq] at h
          subst h
          exact ⟨img, masks, rfl, hi, hm⟩

/-- C1: when a per-image step of a run (folder present, oracle initialized)
raises for one Worklist image, the error is absorbed at the per-image
boundary: an error line naming the file is printed, the failed image
contributes no CSV row and no overlay write, every Worklist image still
contributes through the same per-image step in processing order, and the
run exits with status 0. -/
theorem C1_per_image_failure_isolated (cfg : RunConfig)
    (hdir : cfg.folderIsDir = true) (hinit : cfg.oracleInitOk = true)
    (name : String) (hmem : name ∈ worklist cfg.entries)
    (hfail : (stepImage cfg name).2 = none) :
    (runMain cfg).exitCode = 0 ∧
    (∃ msg, LogLine.errorProcessing name msg ∈ (runMain cfg).logs) ∧
    (runMain cfg).csv =
      some (csvTable ((worklist cfg.entries).filterMap (recordOf cfg))) ∧
    recordOf cfg name = none ∧
    (runMain cfg).overlayWrites =
      (worklist cfg.entries).filterMap (overlayOf cfg) ∧
    overlayOf cfg name = none := by
  have hne : worklist cfg.entries ≠ [] := by
    intro h
    rw [h] at hmem
    cases hmem
  rw [runMain_normal cfg hdir hinit hne]
  refine ⟨rfl, ?_, rfl, ?_, rfl, ?_⟩
  · obtain ⟨msg, hmsg⟩ := stepImage_fail_log cfg name hfail
    have hl := mem_loopLogs_of_mem cfg hmem hmsg
    exact ⟨msg, by simp [List.mem_append, hl]⟩
  · rw [recordOf, hfail]; rfl
  · rw [overlayOf, hfail]; rfl

/-- C1 witness: in the three-image run where exactly the second image fails
during inference, isolation holds; concretely the CSV holds exactly the
rows of the first and third image and exactly their two overlays exist. -/
theorem C1_witness :
    ((runMain isoCfg).csv =
        some [["File Name", "True Count"], ["a", "2"], ["c", "2"]] ∧
      (runMain isoCfg).overlayWrites = ["a_overlay.png", "c_overlay.png"]) ∧
    ((runMain isoCfg).exitCode = 0 ∧
      (∃ msg, LogLine.errorProcessing "b.tif" msg ∈ (runMain isoCfg).logs) ∧
      (runMain isoCfg).csv =
        some (csvTable ((worklist isoCfg.entries).filterMap (recordOf isoCfg))) ∧
      recordOf isoCfg "b.tif" = none ∧
      (runMain isoCfg).overlayWrites =
        (worklist isoCfg.entries).filterMap (overlayOf isoCfg) ∧
      overlayOf isoCfg "b.tif" = none) :=
  ⟨by decide,
   C1_per_image_failure_isolated isoCfg rfl rfl "b.tif" (by decide) (by decide)⟩

/-- C2 counterexample: discovery performs no regular-file check, so a
subdirectory whose name carries a recognized image suffix enters the
Worklist even though it is not a regular file. -/
theorem C2_counterexample :
    "fake.png" ∈ worklist [FSEntry.dir "fake.png" []] ∧
    (FSEntry.dir "fake.png" []).isFile = false :=
  ⟨by decide, rfl⟩

/-- C2 (amended): the Worklist holds exactly the names of directory entries
whose lowered suffix is recognized and whose name has no leading dot,
regular file or not, and it has no duplicates whenever the directory
listing has no duplicate names. -/
theorem C2_amended_filter (entries : List FSEntry) (n : String)
    (hnd : (entries.map FSEntry.name).Nodup) :
    (n ∈ worklist entries ↔
      ∃ e ∈ entries, FSEntry.name e = n ∧
        (IMAGE_EXTS.contains (pyLower (pySuffix n)) &&
          !(startsWithDot n)) = true) ∧
    (worklist entries).Nodup := by
  refine ⟨?_, worklist_nodup hnd⟩
  rw [mem_worklist]
  constructor
  · rintro ⟨e, he, hn, hp⟩
    refine ⟨e, he, hn, ?_⟩
    simp only [isPlateEntry] at hp
    rw [hn] at hp
    exact hp
  · rintro ⟨e, he, hn, hc⟩
    refine ⟨e, he, hn, ?_⟩
    simp only [isPlateEntry]
    rw [hn]
    exact hc

/-- C2 witness: the amended membership rule and duplicate-freeness at a
concrete two-entry folder. -/
theorem C2_amended_witness :
    (("a.tif" ∈ worklist [FSEntry.file "a.tif", FSEntry.file "notes.txt"]) ↔
      ∃ e ∈ [FSEntry.file "a.tif", FSEntry.file "notes.txt"],
        FSEntry.name e = "a.tif" ∧
        (IMAGE_EXTS.contains (pyLower (pySuffix "a.tif")) &&
          !(startsWithDot "a.tif")) = true) ∧
    (worklist [FSEntry.file "a.tif", FSEntry.file "notes.txt"]).Nodup :=
  C2_amended_filter [FSEntry.file "a.tif", FSEntry.file "notes.txt"] "a.tif"
    (by decide)

/-- C3: the Worklist is sorted ascending in the path-string order, a
permuted directory listing yields the identical Worklist and the identical
run result, and the CSV data rows follow the Worklist processing order. -/
theorem C3_order_determinism (cfg : RunConfig) (e₂ : List FSEntry)
    (hperm : List.Perm cfg.entries e₂) :
    (worklist cfg.entries).Sorted strLe ∧
    worklist cfg.entries = worklist e₂ ∧
    runMain cfg = runMain { cfg with entries := e₂ } ∧
    (cfg.folderIsDir = true → cfg.oracleInitOk = true →
      worklist cfg.entries ≠ [] →
      (runMain cfg).csv =
        some (csvTable ((worklist cfg.entries).filterMap (recordOf cfg)))) := by
  have hw := worklist_perm_eq hperm
  refine ⟨worklist_sorted _, hw, ?_, ?_⟩
  · show (if cfg.folderIsDir = true then
        runWithImages cfg (outSpecified cfg.outputDirArg) (worklist cfg.entries)
      else ⟨1, false, false, none, [], []⟩) = _
    rw [hw]
    rfl
  · intro h1 h2 h3
    rw [runMain_normal cfg h1 h2 h3]

def cfgA : RunConfig := sampleCfg [.file "b.png", .file "a.png"]

/-- C3 witness: a concrete two-image folder listed in two different orders
gives the same Worklist and the same run result, whose CSV rows follow the
Worklist order. -/
theorem C3_witness :
    worklist cfgA.entries = worklist [FSEntry.file "a.png", FSEntry.file "b.png"] ∧
    runMain cfgA =
      runMain { cfgA with entries := [FSEntry.file "a.png", FSEntry.file "b.png"] } ∧
    (runMain cfgA).csv =
      some (csvTable ((worklist cfgA.entries).filterMap (recordOf cfgA))) := by
  have h := C3_order_determinism cfgA [FSEntry.file "a.png", FSEntry.file "b.png"]
    (List.Perm.swap (FSEntry.file "a.png") (FSEntry.file "b.png") [])
  exact ⟨h.2.1, h.2.2.1, h.2.2.2 rfl rfl (by decide)⟩

/-- C4: with an existing input folder and an empty Worklist the run exits 0,
writes no result-table file, creates no overlay directory and performs no
overlay write. -/
theorem C4_empty_worklist (cfg : RunConfig) (hdir : cfg.folderIsDir = true)
    (he : worklist cfg.entries = []) :
    (runMain cfg).exitCode = 0 ∧ (runMain cfg).csv = none ∧
    (runMain cfg).visualsDirCreated = false ∧
    (runMain cfg).overlayWrites = [] := by
  rw [runMain_empty cfg hdir he]
  exact ⟨rfl, rfl, rfl, rfl⟩

def emptyCfg : RunConfig := sampleCfg [.file "notes.txt"]

/-- C4 witness: a folder holding only a non-image file gives the empty
Worklist and the successful, outputless termination. -/
theorem C4_witness :
    (runMain emptyCfg).exitCode = 0 ∧ (runMain emptyCfg).csv = none ∧
    (runMain emptyCfg).visualsDirCreated = false ∧
    (runMain emptyCfg).overlayWrites = [] :=
  C4_empty_worklist emptyCfg rfl (by decide)

/-- C5 counterexample: a non-empty Worklist does not always yield a result
table: when the oracle construction raises, the run ends with no CSV. -/
theorem C5_counterexample :
    worklist noInitCfg.entries ≠ [] ∧ (runMain noInitCfg).csv = none :=
  ⟨by decide, by decide⟩

/-- C5 (amended): whenever the Worklist is non-empty and the oracle
initialized, the run writes the tabular file whose first row is the header
File Name, True Count and whose remaining rows are the successful images
in processing order - even when every image fails, leaving a header-only
file. -/
theorem C5_amended_csv (cfg : RunConfig) (hdir : cfg.folderIsDir = true)
    (hinit : cfg.oracleInitOk = true) (hne : worklist cfg.entries ≠ []) :
    (runMain cfg).csv =
      some (["File Name", "True Count"] ::
        ((worklist cfg.entries).filterMap (recordOf cfg)).map
          (fun r => [r.fileName, toString r.trueCount])) := by
  rw [runMain_normal cfg hdir hinit hne]
  rfl

/-- C5 witness: a run whose single image fails at decode time still writes
the header-only table. -/
theorem C5_witness :
    (runMain allFailCfg).csv =
      some (["File Name", "True Count"] ::
        ((worklist allFailCfg.entries).filterMap (recordOf allFailCfg)).map
          (fun r => [r.fileName, toString r.trueCount])) ∧
    (worklist allFailCfg.entries).filterMap (recordOf allFailCfg) = [] :=
  ⟨C5_amended_csv allFailCfg rfl rfl (by decide), by decide⟩

/-- C6 counterexample: the missing input folder is not the only non-zero
exit: a run with an existing folder and a non-empty Worklist whose oracle
construction raises also exits non-zero. -/
theorem C6_counterexample :
    noInitCfg.folderIsDir = true ∧ (runMain noInitCfg).exitCode ≠ 0 :=
  ⟨rfl, by decide⟩

/-- C6 (amended): a missing input folder exits non-zero having produced no
output of any kind, and the exit status is non-zero exactly when the folder
is missing or the oracle construction raised on a non-empty Worklist. -/
theorem C6_amended_exit (cfg : RunConfig) :
    (cfg.folderIsDir = false →
      (runMain cfg).exitCode ≠ 0 ∧ (runMain cfg).csv = none ∧
      (runMain cfg).overlayWrites = [] ∧
      (runMain cfg).visualsDirCreated = false ∧
      (runMain cfg).outputDirCreated = false) ∧
    ((runMain cfg).exitCode ≠ 0 ↔
      cfg.folderIsDir = false ∨
        (worklist cfg.entries ≠ [] ∧ cfg.oracleInitOk = false)) := by
  constructor
  · intro hdir
    rw [runMain_missing_folder cfg hdir]
    exact ⟨by decide, rfl, rfl, rfl, rfl⟩
  · cases hdir : cfg.folderIsDir with
    | false =>
      rw [runMain_missing_folder cfg hdir]
      simp
    | true =>
      by_cases hne : worklist cfg.entries = []
      · rw [runMain_empty cfg hdir hne]
        simp [hne]
      · cases hinit : cfg.oracleInitOk with
        | false =>
          rw [runMain_noInit cfg hdir hinit hne]
          simp [hne]
        | true =>
          rw [runMain_normal cfg hdir hinit hne]
          simp [hne]

def badCfg : RunConfig :=
  ⟨false, [], none, false, false, true, okLoad, okInfer, okRender⟩

/-- C6 witness: the amended exit rule at a run invoked on a missing folder,
with the missing-folder implication discharged. -/
theorem C6_witness :
    ((runMain badCfg).exitCode ≠ 0 ∧ (runMain badCfg).csv = none ∧
      (runMain badCfg).overlayWrites = [] ∧
      (runMain badCfg).visualsDirCreated = false ∧
      (runMain badCfg).outputDirCreated = false) ∧
    ((runMain badCfg).exitCode ≠ 0 ↔
      badCfg.folderIsDir = false ∨
        (worklist badCfg.entries ≠ [] ∧ badCfg.oracleInitOk = false)) :=
  ⟨(C6_amended_exit badCfg).1 rfl, (C6_amended_exit badCfg).2⟩

/-- C7: every recorded colony count is the maximum value of the label mask
the oracle returned for that image: it occurs in the mask and bounds every
mask entry from above. -/
theorem C7_count_is_mask_max (cfg : RunConfig) (name : String)
    (r : CountRecord) (hr : recordOf cfg name = some r) :
    ∃ img masks, cfg.load name = .ok img ∧ cfg.infer img = .ok masks ∧
      r.trueCount ∈ masks ∧ ∀ u ∈ masks, u ≤ r.trueCount := by
  rw [recordOf] at hr
  cases hs : (stepImage cfg name).2 with
  | none =>
    rw [hs] at hr
    cases hr
  | some pr =>
    rw [hs] at hr
    simp only [Option.map_some', Option.some.injEq] at hr
    obtain ⟨img, masks, hl, hi, hm⟩ := stepImage_ok_mask cfg name pr hs
    obtain ⟨hmem, hub⟩ := maskMax_spec masks pr.1 hm
    subst hr
    exact ⟨img, masks, hl, hi, hmem, hub⟩

/-- C7 witness: the mask holding 0..7 records count 7, the all-zero mask
records count 0. -/
theorem C7_witness :
    (∃ img masks,
      (sampleCfg [FSEntry.file "a.png"]).load "a.png" = .ok img ∧
      (sampleCfg [FSEntry.file "a.png"]).infer img = .ok masks ∧
      (7 : Nat) ∈ masks ∧ ∀ u ∈ masks, u ≤ 7) ∧
    (∃ img masks, zeroCfg.load "empty.png" = .ok img ∧
      zeroCfg.infer img = .ok masks ∧ (0 : Nat) ∈ masks ∧ ∀ u ∈ masks, u ≤ 0) :=
  ⟨C7_count_is_mask_max (sampleCfg [FSEntry.file "a.png"]) "a.png" ⟨"a", 7⟩
      (by decide),
   C7_count_is_mask_max zeroCfg "empty.png" ⟨"empty", 0⟩ (by decide)⟩

/-- C8: on a non-empty Worklist the model is constructed exactly once, with
the flag of the fixed CUDA-then-MPS-then-CPU preference order, after the
accelerator probes and before any per-image line; when the construction
raises, the run exits non-zero with no per-image processing, no CSV and no
overlay write. -/
theorem C8_oracle_init_once (cfg : RunConfig) (hdir : cfg.folderIsDir = true)
    (hne : worklist cfg.entries ≠ []) :
    gpuFlag cfg.cudaAvailable cfg.mpsAvailable =
      (cfg.cudaAvailable || cfg.mpsAvailable) ∧
    (∃ pre post,
      (runMain cfg).logs =
        pre ++ LogLine.loadingModel (gpuFlag cfg.cudaAvailable cfg.mpsAvailable)
          :: post ∧
      LogLine.loadingModel (gpuFlag cfg.cudaAvailable cfg.mpsAvailable) ∉ pre ∧
      LogLine.loadingModel (gpuFlag cfg.cudaAvailable cfg.mpsAvailable) ∉ post ∧
      ∀ n, LogLine.processing n ∉ pre) ∧
    (cfg.oracleInitOk = false →
      (runMain cfg).exitCode = 1 ∧ (runMain cfg).csv = none ∧
      (runMain cfg).overlayWrites = [] ∧
      ∀ n, LogLine.processing n ∉ (runMain cfg).logs) := by
  have hgor : gpuFlag cfg.cudaAvailable cfg.mpsAvailable =
      (cfg.cudaAvailable || cfg.mpsAvailable) := by
    cases cfg.cudaAvailable <;> cases cfg.mpsAvailable <;> rfl
  have hnotpre : ∀ n, LogLine.processing n ∉
      listingLogs (worklist cfg.entries) ++ [LogLine.savingTo "cp_visuals"]
        ++ gpuLogs cfg.cudaAvailable cfg.mpsAvailable := by
    intro n hmem
    rcases List.mem_append.mp hmem with hmem | hmem
    · rcases List.mem_append.mp hmem with hmem | hmem
      · exact processing_not_mem_listingLogs n _ hmem
      · simp at hmem
    · exact processing_not_mem_gpuLogs n _ _ hmem
  have hlmpre : LogLine.loadingModel (gpuFlag cfg.cudaAvailable cfg.mpsAvailable) ∉
      listingLogs (worklist cfg.entries) ++ [LogLine.savingTo "cp_visuals"]
        ++ gpuLogs cfg.cudaAvailable cfg.mpsAvailable := by
    intro hmem
    rcases List.mem_append.mp hmem with hmem | hmem
    · rcases List.mem_append.mp hmem with hmem | hmem
      · exact loadingModel_not_mem_listingLogs _ _ hmem
      · simp at hmem
    · exact loadingModel_not_mem_gpuLogs _ _ _ hmem
  cases hinit : cfg.oracleInitOk with
  | true =>
    rw [runMain_normal cfg hdir hinit hne]
    refine ⟨hgor,
      ⟨listingLogs (worklist cfg.entries) ++ [LogLine.savingTo "cp_visuals"]
          ++ gpuLogs cfg.cudaAvailable cfg.mpsAvailable,
        loopLogs cfg (worklist cfg.entries)
          ++ [LogLine.done "colony_counts.csv", LogLine.overlaysIn "cp_visuals"],
        ?_, hlmpre, ?_, hnotpre⟩,
      fun hbad => nomatch hbad⟩
    · simp [List.append_assoc]
    · intro hmem
      rcases List.mem_append.mp hmem with hmem | hmem
      · exact loadingModel_not_mem_loopLogs cfg _ _ hmem
      · simp at hmem
  | false =>
    rw [runMain_noInit cfg hdir hinit hne]
    refine ⟨hgor,
      ⟨listingLogs (worklist cfg.entries) ++ [LogLine.savingTo "cp_visuals"]
          ++ gpuLogs cfg.cudaAvailable cfg.mpsAvailable,
        [], ?_, hlmpre, by simp, hnotpre⟩,
      fun _ => ⟨rfl, rfl, rfl, ?_⟩⟩
    · simp [List.append_assoc]
    · intro n hmem
      rcases List.mem_append.mp hmem with hmem | hmem
      · exact hnotpre n hmem
      · simp at hmem

/-- C8 witness: the once-before-the-loop model construction and the
preference-order flag at a concrete CPU-only run, with the
failed-construction implication discharged on a failing oracle. -/
theorem C8_witness :
    (gpuFlag noInitCfg.cudaAvailable noInitCfg.mpsAvailable =
        (noInitCfg.cudaAvailable || noInitCfg.mpsAvailable) ∧
      (∃ pre post,
        (runMain noInitCfg).logs =
          pre ++ LogLine.loadingModel
              (gpuFlag noInitCfg.cudaAvailable noInitCfg.mpsAvailable) :: post ∧
        LogLine.loadingModel
            (gpuFlag noInitCfg.cudaAvailable noInitCfg.mpsAvailable) ∉ pre ∧
        LogLine.loadingModel
            (gpuFlag noInitCfg.cudaAvailable noInitCfg.mpsAvailable) ∉ post ∧
        ∀ n, LogLine.processing n ∉ pre)) ∧
    ((runMain noInitCfg).exitCode = 1 ∧ (runMain noInitCfg).csv = none ∧
      (runMain noInitCfg).overlayWrites = [] ∧
      ∀ n, LogLine.processing n ∉ (runMain noInitCfg).logs) := by
  have h := C8_oracle_init_once noInitCfg rfl (by decide)
  exact ⟨⟨h.1, h.2.1⟩, h.2.2 rfl⟩

/-- C9: discovery is non-recursive: the path of a file inside a
subdirectory of the input folder never occurs among the Worklist paths, and
every CSV row and every overlay write of the loop stems from a Worklist
member. -/
theorem C9_non_recursive (folder : FPath) (cfg : RunConfig) (d : String)
    (children : List FSEntry) (e : FSEntry)
    (hd : FSEntry.dir d children ∈ cfg.entries) (he : e ∈ children) :
    (folder ++ [d, e.name]) ∉ worklistPaths folder cfg.entries ∧
    (∀ r ∈ (runLoop cfg (worklist cfg.entries)).rows,
      ∃ n ∈ worklist cfg.entries, recordOf cfg n = some r) ∧
    (∀ o ∈ (runLoop cfg (worklist cfg.entries)).overlays,
      ∃ n ∈ worklist cfg.entries, overlayOf cfg n = some o) := by
  refine ⟨?_, ?_, ?_⟩
  · intro hmem
    rw [worklistPaths, List.mem_map] at hmem
    obtain ⟨n, _, hn⟩ := hmem
    rw [pathOf] at hn
    have hlen := congrArg List.length hn
    simp only [List.length_append, List.length_cons, List.length_nil] at hlen
    omega
  · intro r hr
    rw [runLoop_eq] at hr
    exact List.mem_filterMap.mp hr
  · intro o ho
    rw [runLoop_eq] at ho
    exact List.mem_filterMap.mp ho

/-- C9 witness: a nested image file below a subdirectory of a concrete
folder appears in no Worklist path, and the loop contributions all come
from Worklist members. -/
theorem C9_witness :
    (["data", "sub", "nested.png"] ∉
      worklistPaths ["data"]
        (sampleCfg [FSEntry.dir "sub" [FSEntry.file "nested.png"]]).entries) ∧
    (∀ r ∈ (runLoop (sampleCfg [FSEntry.dir "sub" [FSEntry.file "nested.png"]])
        (worklist (sampleCfg [FSEntry.dir "sub" [FSEntry.file "nested.png"]]).entries)).rows,
      ∃ n ∈ worklist (sampleCfg [FSEntry.dir "sub" [FSEntry.file "nested.png"]]).entries,
        recordOf (sampleCfg [FSEntry.dir "sub" [FSEntry.file "nested.png"]]) n = some r) ∧
    (∀ o ∈ (runLoop (sampleCfg [FSEntry.dir "sub" [FSEntry.file "nested.png"]])
        (worklist (sampleCfg [FSEntry.dir "sub" [FSEntry.file "nested.png"]]).entries)).overlays,
      ∃ n ∈ worklist (sampleCfg [FSEntry.dir "sub" [FSEntry.file "nested.png"]]).entries,
        overlayOf (sampleCfg [FSEntry.dir "sub" [FSEntry.file "nested.png"]]) n = some o) :=
  C9_non_recursive ["data"] (sampleCfg [FSEntry.dir "sub" [FSEntry.file "nested.png"]])
    "sub" [FSEntry.file "nested.png"] (FSEntry.file "nested.png")
    (List.mem_cons_self _ _) (List.mem_cons_self _ _)

/-- C10: the CSV identifier and the overlay target of an image depend only
on its stem, so in the two-entry folder plate1.tif, plate1.png with both
images succeeding, the CSV carries two rows with the identical stem while
both overlay writes target one path, leaving a single overlay file. -/
theorem C10_stem_collision (cfg : RunConfig)
    (hentries : cfg.entries = [FSEntry.file "plate1.tif", FSEntry.file "plate1.png"])
    (hdir : cfg.folderIsDir = true) (hinit : cfg.oracleInitOk = true)
    (c₁ c₂ : Nat) (o₁ o₂ : String)
    (h1 : (stepImage cfg "plate1.png").2 = some (c₁, o₁))
    (h2 : (stepImage cfg "plate1.tif").2 = some (c₂, o₂)) :
    (∀ n pr, (stepImage cfg n).2 = some pr →
      overlayOf cfg n = some (pyStem n ++ "_overlay.png") ∧
      recordOf cfg n = some ⟨pyStem n, pr.1⟩) ∧
    (runMain cfg).csv = some (csvTable [⟨"plate1", c₁⟩, ⟨"plate1", c₂⟩]) ∧
    (runMain cfg).overlayWrites =
      ["plate1_overlay.png", "plate1_overlay.png"] ∧
    finalOverlayFiles ["plate1_overlay.png", "plate1_overlay.png"] =
      ["plate1_overlay.png"] := by
  have hw : worklist cfg.entries = ["plate1.png", "plate1.tif"] := by
    rw [hentries]
    decide
  have hne : worklist cfg.entries ≠ [] := by
    rw [hw]
    simp
  have hstem1 : pyStem "plate1.png" = "plate1" := by decide
  have hstem2 : pyStem "plate1.tif" = "plate1" := by decide
  have hr1 : recordOf cfg "plate1.png" = some ⟨"plate1", c₁⟩ := by
    rw [recordOf, h1, Option.map_some', hstem1]
  have hr2 : recordOf cfg "plate1.tif" = some ⟨"plate1", c₂⟩ := by
    rw [recordOf, h2, Option.map_some', hstem2]
  have hov : ("plate1" ++ "_overlay.png" : String) = "plate1_overlay.png" := by decide
  have ho1 : overlayOf cfg "plate1.png" = some "plate1_overlay.png" := by
    rw [overlayOf, h1, Option.map_some',
      stepImage_ok_overlay_name cfg "plate1.png" (c₁, o₁) h1, hstem1, hov]
  have ho2 : overlayOf cfg "plate1.tif" = some "plate1_overlay.png" := by
    rw [overlayOf, h2, Option.map_some',
      stepImage_ok_overlay_name cfg "plate1.tif" (c₂, o₂) h2, hstem2, hov]
  refine ⟨?_, ?_, ?_, by decide⟩
  · intro n pr h
    constructor
    · rw [overlayOf, h, Option.map_some', stepImage_ok_overlay_name cfg n pr h]
    · rw [recordOf, h, Option.map_some']
  · rw [runMain_normal cfg hdir hinit hne, hw]
    simp [List.filterMap_cons, hr1, hr2]
  · rw [runMain_normal cfg hdir hinit hne, hw]
    simp [List.filterMap_cons, ho1, ho2]

def stemCfg : RunConfig := sampleCfg [.file "plate1.tif", .file "plate1.png"]

/-- C10 witness: the stem-collision run with both images succeeding - two
rows with stem plate1, two overlay writes to the single path
plate1_overlay.png, one resulting overlay file. -/
theorem C10_witness :
    (runMain stemCfg).csv =
      some (csvTable [⟨"plate1", 7⟩, ⟨"plate1", 7⟩]) ∧
    (runMain stemCfg).overlayWrites =
      ["plate1_overlay.png", "plate1_overlay.png"] ∧
    finalOverlayFiles ["plate1_overlay.png", "plate1_overlay.png"] =
      ["plate1_overlay.png"] := by
  have h := C10_stem_collision stemCfg rfl rfl rfl 7 7
    "plate1_overlay.png" "plate1_overlay.png" (by decide) (by decide)
  exact ⟨h.2.1, h.2.2.1, h.2.2.2⟩

end CellCount
